import Mathlib

/-!
Verification of the starchain repository (src/block.js, src/blockchain.js,
src/helpers.js) against its natural-language specification.

The JavaScript source is shallowly embedded: each class method becomes a
Lean function; the SHA256 digest primitive is an explicit function
parameter (the spec treats it as an opaque oracle); the JSON payload
decoder used by getBData is likewise a parameter; promise
rejection becomes an Except error value; mutation of the chain becomes
explicit state passing (each operation returns the post-call Blockchain).
Clock reads (helpers.getTimeStamp, which yields whole seconds) become
explicit numeric arguments.
-/

/-- Decimal digit character, as produced by JSON.stringify for numbers:
48 is the code of the character 0. -/
def decDigitChar (n : Nat) : Char := Char.ofNat (48 + n % 10)

/-- Fuel-driven decimal rendering of a natural number, most significant
digit first, prepended to an accumulator.  Structural recursion on the
fuel keeps it kernel-reducible on concrete inputs. -/
def natToDecCore : Nat → Nat → List Char → List Char
  | 0, _, acc => acc
  | fuel + 1, n, acc =>
    if n / 10 = 0 then decDigitChar n :: acc
    else natToDecCore fuel (n / 10) (decDigitChar n :: acc)

/-- Decimal rendering of a natural number, as JSON.stringify prints a
non-negative JavaScript number. -/
def natToDec (n : Nat) : String := String.mk (natToDecCore (n + 1) n [])

/-- Specification twin of natToDecCore used only in proofs: the digit
list of n, most significant first. -/
def natDigits (n : Nat) : List Char :=
  if _ : n / 10 = 0 then [decDigitChar n]
  else natDigits (n / 10) ++ [decDigitChar n]
decreasing_by
  exact Nat.div_lt_self (Nat.pos_of_ne_zero (by omega)) (by omega)

/-- JSON rendering of a JavaScript value that is either null or a
string, as in the hash and previousBlockHash fields of a Block. -/
def jsonOptStr : Option String → String
  | none => "null"
  | some s => "\"" ++ s ++ "\""

/-- JSON rendering of the time field of a Block: the constructor leaves
the JavaScript number 0 there, and setTimeStamp replaces it with the
string produced by helpers.getTimeStamp. -/
def jsonTime : Option Nat → String
  | none => "0"
  | some t => "\"" ++ natToDec t ++ "\""

/-- Lower-case hexadecimal digit, as produced by Buffer.toString with
the hex encoding: 48 is the code of 0 and 87 + 10 the code of a. -/
def hexDigitChar (n : Nat) : Char :=
  if n < 10 then Char.ofNat (48 + n) else Char.ofNat (87 + n)

/-- Hex encoding of a string, as in Buffer.from(s).toString("hex") for
ASCII content; the Block constructor stores the payload this way. -/
def hexEncode (s : String) : String :=
  String.mk (s.data.flatMap fun c => [hexDigitChar (c.toNat / 16), hexDigitChar (c.toNat % 16)])

/-- Block, from src/block.js: the constructor sets hash to null,
height to 0, body to the hex encoding of the JSON payload, time to the
number 0 and previousBlockHash to null.  The null states of hash,
time and previousBlockHash are the none cases of the options. -/
structure Block where
  hash : Option String
  height : Nat
  body : String
  time : Option Nat
  previousBlockHash : Option String
deriving DecidableEq

deriving instance DecidableEq for Except

/-- Block constructor: new Block(data) with dataJson the JSON text of
the data argument; body stores its hex encoding. -/
def Block.new (dataJson : String) : Block :=
  { hash := none
    height := 0
    body := hexEncode dataJson
    time := none
    previousBlockHash := none }

/-- JSON.stringify of a Block object: own enumerable fields in
insertion order hash, height, body, time, previousBlockHash.  This is
the exact input of the SHA256 call in Block._hashBlock. -/
def serialize (b : Block) : String :=
  "\x7b\"hash\":" ++ jsonOptStr b.hash
    ++ ",\"height\":" ++ natToDec b.height
    ++ ",\"body\":\"" ++ b.body
    ++ "\",\"time\":" ++ jsonTime b.time
    ++ ",\"previousBlockHash\":" ++ jsonOptStr b.previousBlockHash ++ "\x7d"

/-- Block._hashBlock: SHA256(JSON.stringify(this)).toString(), with the
digest primitive hashFn kept abstract. -/
def Block._hashBlock (hashFn : String → String) (b : Block) : String :=
  hashFn (serialize b)

/-- Block.setHash: this.hash = this._hashBlock(). -/
def Block.setHash (hashFn : String → String) (b : Block) : Block :=
  { b with hash := some (Block._hashBlock hashFn b) }

/-- Block.setHeight: sets the height; the JavaScript guard against a
negative argument cannot fire since heights are naturals here. -/
def Block.setHeight (b : Block) (h : Nat) : Block :=
  { b with height := h }

/-- Block.setPreviousHash: sets previousBlockHash only when the
argument is not null. -/
def Block.setPreviousHash (b : Block) (h : Option String) : Block :=
  match h with
  | none => b
  | some v => { b with previousBlockHash := some v }

/-- Block.setTimeStamp: this.time = helpers.getTimeStamp(), the clock
read passed explicitly. -/
def Block.setTimeStamp (b : Block) (ts : Nat) : Block :=
  { b with time := some ts }

/-- Block.validate, stateful form: saves the current hash, clears the
hash field, recomputes the digest, restores the hash and compares.  The
returned block is the object as the method leaves it. -/
def Block.validateB (hashFn : String → String) (b : Block) : Bool × Block :=
  let currentHash := b.hash
  let cleared : Block := { b with hash := none }
  let newHash := Block._hashBlock hashFn cleared
  let restored : Block := { cleared with hash := currentHash }
  (decide (currentHash = some newHash), restored)

/-- Block.validate, result only. -/
def Block.validate (hashFn : String → String) (b : Block) : Bool :=
  (Block.validateB hashFn b).1

/-- Decoded star payload: the data field of the stored record, an
owner address and the star content. -/
structure StarData where
  owner : String
  star : String
deriving DecidableEq

/-- GetBlockDataError, from src/block.js: the genesis rejection or a
failure of the hex decode plus JSON.parse of the body. -/
inductive GetBlockDataError where
  | genesis
  | decodeFail
deriving DecidableEq

/-- Block.getBData: rejects on the genesis block, identified by a null
previousBlockHash or a zero height, and otherwise decodes the body;
decode is the hex2ascii plus JSON.parse step, abstracted as a function
that can fail. -/
def Block.getBData (decode : String → Option StarData) (b : Block) :
    Except GetBlockDataError StarData :=
  if b.previousBlockHash = none ∨ b.height = 0 then .error .genesis
  else
    match decode b.body with
    | some d => .ok d
    | none => .error .decodeFail

/-- Payload of a validation issue, from the ValidationErrorLog data
objects in src/blockchain.js: the tamper issue carries the hash and
height of the offending block, the link issue also both predecessor
digests. -/
inductive IssueData where
  | tamper (hash : Option String) (height : Nat)
  | link (hash : Option String) (height : Nat)
      (onBlock : Option String) (onChain : Option String)
deriving DecidableEq

/-- ValidationErrorLog from src/blockchain.js. -/
structure ValidationErrorLog where
  message : String
  data : IssueData
deriving DecidableEq

/-- JavaScript truthiness of the previousBlockHash field: null and the
empty string are falsy, every other string truthy. -/
def truthy : Option String → Bool
  | none => false
  | some s => decide (s ≠ "")

/-- Blockchain, from src/blockchain.js: the chain array, the cached
height starting at -1, and the limitTime property set to
helpers.minuteToSeconds(5). -/
structure Blockchain where
  chain : List Block
  height : Int
  limitTime : Nat
deriving DecidableEq

/-- helpers.minuteToSeconds. -/
def minuteToSeconds (minutes : Nat) : Nat := minutes * 60

/-- One pass of the validateChain loop: done holds the already visited
blocks as the loop leaves them, log the issues pushed so far, and the
third argument the blocks still to visit.  Each step runs
Block.validate on the current block, pushes a tamper issue when it
answers false, and pushes a link issue when the previousBlockHash field
is truthy, a predecessor exists, and the field differs from the
predecessor hash. -/
def validateWalk (hashFn : String → String) :
    List Block → List ValidationErrorLog → List Block →
    List ValidationErrorLog × List Block
  | done, log, [] => (log, done)
  | done, log, b :: rest =>
    let r := Block.validateB hashFn b
    let tamperLog : List ValidationErrorLog :=
      if r.1 then []
      else [⟨"Block is not valid", IssueData.tamper r.2.hash r.2.height⟩]
    let linkLog : List ValidationErrorLog :=
      match done.getLast? with
      | none => []
      | some prev =>
        if truthy r.2.previousBlockHash ∧ r.2.previousBlockHash ≠ prev.hash then
          [⟨"Block is wrongly linked",
            IssueData.link r.2.hash r.2.height r.2.previousBlockHash prev.hash⟩]
        else []
    validateWalk hashFn (done ++ [r.2]) (log ++ tamperLog ++ linkLog) rest

/-- Blockchain.validateChain, stateful form: the issue list together
with the Blockchain as the walk leaves it. -/
def Blockchain.validateChainSt (hashFn : String → String) (bc : Blockchain) :
    List ValidationErrorLog × Blockchain :=
  let r := validateWalk hashFn [] [] bc.chain
  (r.1, { bc with chain := r.2 })

/-- Blockchain.validateChain, issue list only. -/
def Blockchain.validateChain (hashFn : String → String) (bc : Blockchain) :
    List ValidationErrorLog :=
  (Blockchain.validateChainSt hashFn bc).1

/-- AddNewBlockError from src/blockchain.js. -/
structure AddNewBlockError where
  msg : String
deriving DecidableEq

/-- The sealing steps of Blockchain._addBlock: previousBlock is
chain[chainLength - 1] (undefined on the empty chain, where the natural
subtraction also yields an out-of-range index), and the candidate is
point-chained through setPreviousHash, setTimeStamp, setHeight and
setHash. -/
def Blockchain.sealCandidate (hashFn : String → String) (ts : Nat)
    (bc : Blockchain) (block : Block) : Block :=
  Block.setHash hashFn
    (Block.setHeight
      (Block.setTimeStamp
        (Block.setPreviousHash block
          (match bc.chain[bc.chain.length - 1]? with
           | some pb => pb.hash
           | none => none)) ts) bc.chain.length)

/-- Blockchain._addBlock: seal the candidate, run validateChain on the
chain as stored (the candidate has not been pushed yet), throw when the
issue list is nonempty, and otherwise push the sealed block and
increment the cached height.  The returned Blockchain is the state
after the call on both paths. -/
def Blockchain._addBlock (hashFn : String → String) (ts : Nat)
    (bc : Blockchain) (block : Block) :
    Except AddNewBlockError Block × Blockchain :=
  let sealed := Blockchain.sealCandidate hashFn ts bc block
  let errors := Blockchain.validateChain hashFn bc
  if errors.length ≠ 0 then
    (.error ⟨"Chain is invalid!"⟩, bc)
  else
    (.ok sealed, { bc with chain := bc.chain ++ [sealed], height := bc.height + 1 })

/-- The Blockchain constructor followed by the genesis append performed
by the chain initialization: chain [], height -1, limitTime 300, then
_addBlock on a fresh Block carrying the literal genesis payload. -/
def freshChain (hashFn : String → String) (ts : Nat) : Blockchain :=
  (Blockchain._addBlock hashFn ts
    { chain := [], height := -1, limitTime := minuteToSeconds 5 }
    (Block.new "\x7b\"data\":\"Genesis Block\"\x7d")).2

/-- Blockchain.getChainHeight resolves with the cached height. -/
def Blockchain.getChainHeight (bc : Blockchain) : Int := bc.height

/-- Blockchain.requestMessageOwnershipVerification: the challenge
string address colon seconds colon starRegistry. -/
def Blockchain.requestMessageOwnershipVerification (address : String) (now : Nat) :
    String :=
  address ++ ":" ++ natToDec now ++ ":starRegistry"

/-- SubmitStarError from src/blockchain.js; its constructor prepends a
fixed phrase to the message, so the three failure kinds of submitStar
are told apart by the full message. -/
structure SubmitStarError where
  msg : String
deriving DecidableEq

/-- The message prepended by the SubmitStarError constructor. -/
def submitErrorHead : String := "An error occured submitting a new star: "

/-- The expired-challenge SubmitStarError. -/
def submitExpiredError : SubmitStarError :=
  ⟨submitErrorHead ++ "Too much time passed between request validation and submit"⟩

/-- The rejected-signature SubmitStarError. -/
def submitBadSignatureError : SubmitStarError :=
  ⟨submitErrorHead ++ "Validation for your message failed!"⟩

/-- JavaScript String.prototype.split with a one-character separator,
over the character list of the string: the empty string splits to one
empty field, and every separator occurrence opens a new field. -/
def splitOnColon : List Char → List (List Char)
  | [] => [[]]
  | c :: rest =>
    let r := splitOnColon rest
    if c = ':' then [] :: r
    else
      match r with
      | [] => [[c]]
      | h :: t => (c :: h) :: t

/-- JavaScript parseInt on a decimal string: the value of the leading
digit run, NaN (none) when there is no leading digit.  The messages the
flow produces only ever carry plain decimal fields, so sign, blank and
radix handling are not needed. -/
def jsParseIntJS (l : List Char) : Option Nat :=
  let ds := l.takeWhile Char.isDigit
  if ds.isEmpty then none
  else some (ds.foldl (fun a c => a * 10 + (c.toNat - 48)) 0)

/-- The first step of submitStar: parseInt(message.split(":")[1]), with
none standing for NaN, which also covers the missing second field. -/
def parseMessageTime (message : String) : Option Nat :=
  match (splitOnColon message.data)[1]? with
  | none => none
  | some seg => jsParseIntJS seg

/-- JSON text of the payload object submitStar stores, with starJson
the JSON text of the star argument. -/
def starBodyJson (address starJson : String) : String :=
  "\x7b\"data\":\x7b\"owner\":\"" ++ address ++ "\",\"star\":" ++ starJson ++ "\x7d\x7d"

/-- Blockchain.submitStar: read the time out of the message, compare
the elapsed time against limitTime, consult the signature oracle,
construct the payload block and delegate to _addBlock, wrapping a
foreign error into a SubmitStarError.  A NaN message time makes the
elapsed-time comparison false, so such a submission falls through to
the signature check.  now is the clock read of step 2 and ts the clock
read inside the sealing; verify is the bitcoinjs-message oracle. -/
def Blockchain.submitStar (hashFn : String → String)
    (verify : String → String → String → Bool) (now ts : Nat)
    (bc : Blockchain) (address message signature starJson : String) :
    Except SubmitStarError Block × Blockchain :=
  let messageTime := parseMessageTime message
  let expired : Bool :=
    match messageTime with
    | none => false
    | some m => decide ((now : Int) - (m : Int) > (bc.limitTime : Int))
  if expired then
    (.error submitExpiredError, bc)
  else if !verify message address signature then
    (.error submitBadSignatureError, bc)
  else
    let newBlock := Block.new (starBodyJson address starJson)
    match Blockchain._addBlock hashFn ts bc newBlock with
    | (.ok b, bc2) => (.ok b, bc2)
    | (.error e, bc2) => (.error ⟨submitErrorHead ++ e.msg⟩, bc2)

/-- GetStarByOwnerError from src/blockchain.js. -/
structure GetStarByOwnerError where
  msg : String
deriving DecidableEq

/-- Message text of a GetBlockDataError as seen by the catch clause of
getStarsByWalletAddress; the decode failure text stands for the
engine-specific JSON.parse message. -/
def GetBlockDataError.text : GetBlockDataError → String
  | .genesis => "This is Genesis Block!"
  | .decodeFail => "decode failed"

/-- The loop of getStarsByWalletAddress: walk the blocks, decode each
body through getBData, keep the records whose owner matches, and stop
with a GetStarByOwnerError at the first rejection. -/
def getStarsWalk (decode : String → Option StarData) (address : String) :
    List Block → List StarData → Except GetStarByOwnerError (List StarData)
  | [], stars => .ok stars
  | b :: rest, stars =>
    match Block.getBData decode b with
    | .error e =>
      .error ⟨"An error occured when searching stars by owner: " ++ e.text⟩
    | .ok d =>
      getStarsWalk decode address rest (if d.owner = address then stars ++ [d] else stars)

/-- Blockchain.getStarsByWalletAddress: the chain without its first
element (chain.slice(1)) is walked by getStarsWalk. -/
def Blockchain.getStarsByWalletAddress (decode : String → Option StarData)
    (bc : Blockchain) (address : String) :
    Except GetStarByOwnerError (List StarData) :=
  getStarsWalk decode address (bc.chain.drop 1) []

/-- A sequence of appends through _addBlock, each on a freshly
constructed Block as the code itself always does: the run stops with
none at the first rejected append.  Each list entry carries the clock
read of the sealing and the JSON text of the payload. -/
def appendRun (hashFn : String → String) :
    Blockchain → List (Nat × String) → Option Blockchain
  | bc, [] => some bc
  | bc, (ts, dataJson) :: rest =>
    match Blockchain._addBlock hashFn ts bc (Block.new dataJson) with
    | (.ok _, bc2) => appendRun hashFn bc2 rest
    | (.error _, _) => none

/-- The fuel-driven renderer agrees with its specification twin
whenever the fuel dominates the argument. -/
theorem natToDecCore_eq_natDigits (fuel : Nat) :
    ∀ (n : Nat) (acc : List Char), n < fuel →
      natToDecCore fuel n acc = natDigits n ++ acc := by
  induction fuel with
  | zero => intro n acc h; omega
  | succ fuel ih =>
    intro n acc h
    rw [natToDecCore, natDigits]
    by_cases h10 : n / 10 = 0
    · rw [if_pos h10, dif_pos h10]
      rfl
    · have hlt : n / 10 < fuel := by
        have hdn : n / 10 < n :=
          Nat.div_lt_self (Nat.pos_of_ne_zero (by omega)) (by omega)
        omega
      rw [if_neg h10, dif_neg h10, ih _ _ hlt, List.append_assoc]
      rfl

/-- The character list of a rendered natural number. -/
theorem natToDec_data (n : Nat) : (natToDec n).data = natDigits n := by
  have h := natToDecCore_eq_natDigits (n + 1) n [] (Nat.lt_succ_self n)
  simp [natToDec, h]

/-- Numeric value of a digit list, used to invert the renderer. -/
def decVal (l : List Char) : Nat :=
  l.foldl (fun a c => a * 10 + (c.toNat - 48)) 0

theorem decVal_append_digit (l : List Char) (c : Char) :
    decVal (l ++ [c]) = decVal l * 10 + (c.toNat - 48) := by
  simp [decVal, List.foldl_append]

theorem decDigitChar_toNat (n : Nat) : (decDigitChar n).toNat = 48 + n % 10 := by
  have h : ∀ r, r < 10 → (Char.ofNat (48 + r)).toNat = 48 + r := by decide
  have := h (n % 10) (Nat.mod_lt n (by omega))
  simpa [decDigitChar] using this

/-- The renderer round-trips through the digit value. -/
theorem decVal_natDigits (n : Nat) : decVal (natDigits n) = n := by
  induction n using Nat.strong_induction_on with
  | _ n ih =>
    rw [natDigits]
    by_cases h10 : n / 10 = 0
    · rw [dif_pos h10]
      have hn : n < 10 := by omega
      have hmod : n % 10 = n := Nat.mod_eq_of_lt hn
      simp [decVal, decDigitChar_toNat, hmod]
    · rw [dif_neg h10]
      have hlt : n / 10 < n :=
        Nat.div_lt_self (Nat.pos_of_ne_zero (by omega)) (by omega)
      rw [decVal_append_digit, ih _ hlt, decDigitChar_toNat]
      omega

theorem natDigits_injective : Function.Injective natDigits := by
  intro a b h
  have := congrArg decVal h
  simpa [decVal_natDigits] using this

theorem natToDec_injective : Function.Injective natToDec := by
  intro a b h
  apply natDigits_injective
  rw [← natToDec_data, ← natToDec_data, h]

theorem jsonOptStr_injective : Function.Injective jsonOptStr := by
  intro a b h
  match a, b with
  | none, none => rfl
  | none, some s =>
    have := congrArg String.data h
    simp [jsonOptStr, String.data_append] at this
  | some s, none =>
    have := congrArg String.data h
    simp [jsonOptStr, String.data_append] at this
  | some s, some t =>
    have hd := congrArg String.data h
    simp only [jsonOptStr, String.data_append] at hd
    have hd2 : s.data ++ ['\"'] = t.data ++ ['\"'] := by
      simpa using hd
    have := List.append_cancel_right hd2
    exact congrArg some (String.ext this)

theorem jsonTime_injective : Function.Injective jsonTime := by
  intro a b h
  match a, b with
  | none, none => rfl
  | none, some t =>
    have := congrArg String.data h
    simp [jsonTime, String.data_append, natToDec_data] at this
  | some t, none =>
    have := congrArg String.data h
    simp [jsonTime, String.data_append, natToDec_data] at this
  | some s, some t =>
    have hd := congrArg String.data h
    simp only [jsonTime, String.data_append, natToDec_data] at hd
    have hd2 : natDigits s ++ ['\"'] = natDigits t ++ ['\"'] := by
      simpa using hd
    have := List.append_cancel_right hd2
    exact congrArg some (natDigits_injective this)

/-- Two blocks differing only in the hash field serialize equally only
when the hashes agree. -/
theorem serialize_hash_inj (b : Block) {v1 v2 : Option String}
    (h : serialize { b with hash := v1 } = serialize { b with hash := v2 }) :
    v1 = v2 := by
  have hd := congrArg String.data h
  simp only [serialize, String.data_append, List.append_assoc,
    List.append_cancel_left_eq] at hd
  exact jsonOptStr_injective (String.ext (List.append_cancel_right hd))

/-- Two blocks differing only in the height field serialize equally
only when the heights agree. -/
theorem serialize_height_inj (b : Block) {v1 v2 : Nat}
    (h : serialize { b with height := v1 } = serialize { b with height := v2 }) :
    v1 = v2 := by
  have hd := congrArg String.data h
  simp only [serialize, String.data_append, List.append_assoc,
    List.append_cancel_left_eq, natToDec_data] at hd
  exact natDigits_injective (List.append_cancel_right hd)

/-- Two blocks differing only in the body field serialize equally only
when the bodies agree. -/
theorem serialize_body_inj (b : Block) {v1 v2 : String}
    (h : serialize { b with body := v1 } = serialize { b with body := v2 }) :
    v1 = v2 := by
  have hd := congrArg String.data h
  simp only [serialize, String.data_append, List.append_assoc,
    List.append_cancel_left_eq] at hd
  exact String.ext (List.append_cancel_right hd)

/-- Two blocks differing only in the time field serialize equally only
when the times agree. -/
theorem serialize_time_inj (b : Block) {v1 v2 : Option Nat}
    (h : serialize { b with time := v1 } = serialize { b with time := v2 }) :
    v1 = v2 := by
  have hd := congrArg String.data h
  simp only [serialize, String.data_append, List.append_assoc,
    List.append_cancel_left_eq] at hd
  exact jsonTime_injective (String.ext (List.append_cancel_right hd))

/-- Two blocks differing only in the previousBlockHash field serialize
equally only when those fields agree. -/
theorem serialize_prev_inj (b : Block) {v1 v2 : Option String}
    (h : serialize { b with previousBlockHash := v1 }
        = serialize { b with previousBlockHash := v2 }) :
    v1 = v2 := by
  have hd := congrArg String.data h
  simp only [serialize, String.data_append, List.append_assoc,
    List.append_cancel_left_eq] at hd
  exact jsonOptStr_injective (String.ext (List.append_cancel_right hd))

/-- Issues one validateChain iteration pushes for a block, given the
predecessor it is compared against; specification twin of the loop
body of validateWalk. -/
def blockIssues (hashFn : String → String) (prev : Option Block) (b : Block) :
    List ValidationErrorLog :=
  (if Block.validate hashFn b then []
   else [⟨"Block is not valid", IssueData.tamper b.hash b.height⟩])
  ++ (match prev with
      | none => []
      | some p =>
        if truthy b.previousBlockHash ∧ b.previousBlockHash ≠ p.hash then
          [⟨"Block is wrongly linked",
            IssueData.link b.hash b.height b.previousBlockHash p.hash⟩]
        else [])

/-- Issue list of a block sequence walked with a given predecessor for
the first block; specification twin of validateWalk. -/
def chainIssues (hashFn : String → String) (prev : Option Block) :
    List Block → List ValidationErrorLog
  | [] => []
  | b :: rest => blockIssues hashFn prev b ++ chainIssues hashFn (some b) rest

/-- Block.validate restores the block it was called on. -/
theorem validateB_snd (hashFn : String → String) (b : Block) :
    (Block.validateB hashFn b).2 = b := rfl

/-- The loop of validateChain computes chainIssues and returns the
visited blocks unchanged. -/
theorem validateWalk_eq (hashFn : String → String) :
    ∀ (todo done : List Block) (log : List ValidationErrorLog),
      validateWalk hashFn done log todo
        = (log ++ chainIssues hashFn done.getLast? todo, done ++ todo) := by
  intro todo
  induction todo with
  | nil => intro done log; simp [validateWalk, chainIssues]
  | cons b rest ih =>
    intro done log
    rw [validateWalk, ih]
    simp only [validateB_snd, chainIssues, blockIssues, List.getLast?_concat,
      List.append_assoc, List.singleton_append, Prod.mk.injEq]
    exact ⟨rfl, trivial⟩

/-- Blockchain.validateChain computes chainIssues on the stored chain
with no predecessor for the first block. -/
theorem validateChain_eq (hashFn : String → String) (bc : Blockchain) :
    Blockchain.validateChain hashFn bc = chainIssues hashFn none bc.chain := by
  simp [Blockchain.validateChain, Blockchain.validateChainSt, validateWalk_eq]

/-- Block.validate answers true exactly when the stored hash is the
digest of the serialization with the hash field cleared. -/
theorem validate_true_iff (hashFn : String → String) (b : Block) :
    Block.validate hashFn b = true
      ↔ b.hash = some (hashFn (serialize { b with hash := none })) := by
  simp [Block.validate, Block.validateB, Block._hashBlock]

/-- Sealing a block whose hash field is still null makes it validate. -/
theorem validate_setHash (hashFn : String → String) (b : Block)
    (hb : b.hash = none) :
    Block.validate hashFn (Block.setHash hashFn b) = true := by
  have hcl : ({ b with hash := none } : Block) = b := by
    cases b
    simp_all
  rw [validate_true_iff]
  simp [Block.setHash, Block._hashBlock, hcl]

/-- A block that differs from a validating block in its serialized
content, digest field left alone, fails Block.validate, provided the
digest oracle is injective. -/
theorem validate_false_of_ne (hashFn : String → String)
    (hinj : Function.Injective hashFn) (b bm : Block)
    (hhash : bm.hash = b.hash) (hv : Block.validate hashFn b = true)
    (hser : serialize { bm with hash := none } ≠ serialize { b with hash := none }) :
    Block.validate hashFn bm = false := by
  rw [validate_true_iff] at hv
  rw [Bool.eq_false_iff]
  rw [Ne, validate_true_iff, hhash, hv]
  intro hEq
  exact hser (hinj (Option.some.inj hEq)).symm

/-- Predecessor seen by the walk after a block list, with a fallback
for the empty list. -/
def lastOr (p : Option Block) : List Block → Option Block
  | [] => p
  | b :: l => lastOr (some b) l

theorem lastOr_getLast? (l : List Block) :
    ∀ (b : Block), lastOr (some b) l = (b :: l).getLast? := by
  induction l with
  | nil => intro b; rfl
  | cons c t ih =>
    intro b
    rw [List.getLast?_cons_cons]
    exact ih c

theorem lastOr_none (l : List Block) : lastOr none l = l.getLast? := by
  cases l with
  | nil => rfl
  | cons b t => exact lastOr_getLast? t b

/-- chainIssues splits over append, the second part walked with the
last block of the first part as predecessor. -/
theorem chainIssues_append (hashFn : String → String) (l1 : List Block) :
    ∀ (p : Option Block) (l2 : List Block),
      chainIssues hashFn p (l1 ++ l2)
        = chainIssues hashFn p l1 ++ chainIssues hashFn (lastOr p l1) l2 := by
  induction l1 with
  | nil => intro p l2; simp [chainIssues, lastOr]
  | cons b rest ih =>
    intro p l2
    show blockIssues hashFn p b ++ chainIssues hashFn (some b) (rest ++ l2)
        = (blockIssues hashFn p b ++ chainIssues hashFn (some b) rest)
          ++ chainIssues hashFn (lastOr (some b) rest) l2
    rw [ih (some b) l2, List.append_assoc]

/-- The issues of a block depend on the predecessor only through its
hash field. -/
theorem blockIssues_congr (hashFn : String → String) {p q : Option Block}
    (hpq : p.map Block.hash = q.map Block.hash) (b : Block) :
    blockIssues hashFn p b = blockIssues hashFn q b := by
  match p, q with
  | none, none => rfl
  | none, some y => simp at hpq
  | some x, none => simp at hpq
  | some x, some y =>
    simp only [Option.map_some', Option.some.injEq] at hpq
    simp [blockIssues, hpq]

/-- chainIssues depends on the initial predecessor only through its
hash field. -/
theorem chainIssues_congr (hashFn : String → String) {p q : Option Block}
    (hpq : p.map Block.hash = q.map Block.hash) (l : List Block) :
    chainIssues hashFn p l = chainIssues hashFn q l := by
  cases l with
  | nil => rfl
  | cons b rest => simp only [chainIssues, blockIssues_congr hashFn hpq b]

/-- Shape invariant of a chain: the cached height is the length minus
one, the stored height of every block is its index, and every block at
a positive index carries the hash of its predecessor. -/
def wfChain (bc : Blockchain) : Prop :=
  bc.height = (bc.chain.length : Int) - 1 ∧
  (∀ (i : Nat) (b : Block), bc.chain[i]? = some b → b.height = i) ∧
  (∀ (i : Nat) (b c : Block), bc.chain[i + 1]? = some c → bc.chain[i]? = some b →
    c.previousBlockHash = b.hash)

/-- The hash field survives the three pre-digest sealing steps. -/
theorem hash_after_setters (block : Block) (a : Option String) (ts n : Nat) :
    (Block.setHeight (Block.setTimeStamp (Block.setPreviousHash block a) ts) n).hash
      = block.hash := by
  cases a <;> simp [Block.setHeight, Block.setTimeStamp, Block.setPreviousHash]

theorem sealCandidate_height (hashFn : String → String) (ts : Nat)
    (bc : Blockchain) (block : Block) :
    (Blockchain.sealCandidate hashFn ts bc block).height = bc.chain.length := by
  unfold Blockchain.sealCandidate
  simp [Block.setHash, Block.setHeight]

theorem sealCandidate_prev (hashFn : String → String) (ts : Nat)
    (bc : Blockchain) (block : Block) (hb : block.previousBlockHash = none) :
    (Blockchain.sealCandidate hashFn ts bc block).previousBlockHash
      = (bc.chain[bc.chain.length - 1]?).bind Block.hash := by
  unfold Blockchain.sealCandidate
  simp only [Block.setHash, Block.setHeight, Block.setTimeStamp]
  cases hp : bc.chain[bc.chain.length - 1]? with
  | none => simpa [Block.setPreviousHash] using hb
  | some pb =>
    cases hh : pb.hash with
    | none => simpa [Block.setPreviousHash, hh] using hb
    | some v => simp [Block.setPreviousHash, hh]

/-- Sealing a fresh block produces a block that validates. -/
theorem validate_sealCandidate (hashFn : String → String) (ts : Nat)
    (bc : Blockchain) (block : Block) (hb : block.hash = none) :
    Block.validate hashFn (Blockchain.sealCandidate hashFn ts bc block) = true := by
  unfold Blockchain.sealCandidate
  apply validate_setHash
  rw [hash_after_setters]
  exact hb

/-- A freshly sealed candidate contributes no issue when walked right
after the chain it was sealed against. -/
theorem blockIssues_sealCandidate (hashFn : String → String) (ts : Nat)
    (bc : Blockchain) (block : Block) (hb : block.hash = none)
    (hp : block.previousBlockHash = none) :
    blockIssues hashFn (lastOr none bc.chain)
      (Blockchain.sealCandidate hashFn ts bc block) = [] := by
  unfold blockIssues
  rw [validate_sealCandidate hashFn ts bc block hb]
  rw [lastOr_none, List.getLast?_eq_getElem?]
  cases hgl : bc.chain[bc.chain.length - 1]? with
  | none => simp
  | some pb =>
    have hpp := sealCandidate_prev hashFn ts bc block hp
    rw [hgl] at hpp
    simp [hpp]

/-- A successful _addBlock call pushed exactly the sealed candidate,
bumped the cached height, and found the stored chain issue-free. -/
theorem addBlock_success (hashFn : String → String) (ts : Nat) (bc : Blockchain)
    (block nb : Block) (bc2 : Blockchain)
    (h : Blockchain._addBlock hashFn ts bc block = (.ok nb, bc2)) :
    nb = Blockchain.sealCandidate hashFn ts bc block ∧
    bc2 = { bc with chain := bc.chain ++ [nb], height := bc.height + 1 } ∧
    Blockchain.validateChain hashFn bc = [] := by
  simp only [Blockchain._addBlock] at h
  by_cases he : (Blockchain.validateChain hashFn bc).length ≠ 0
  · rw [if_pos he] at h
    simp at h
  · rw [if_neg he] at h
    have hval : Blockchain.validateChain hashFn bc = [] := by
      push_neg at he
      exact List.length_eq_zero.mp he
    simp only [Prod.mk.injEq, Except.ok.injEq] at h
    exact ⟨h.1.symm, by rw [← h.2, h.1], hval⟩

/-- A rejected _addBlock call returned the error and left the chain
untouched, and happens exactly when the stored chain has issues. -/
theorem addBlock_failure (hashFn : String → String) (ts : Nat) (bc : Blockchain)
    (block : Block) (he : Blockchain.validateChain hashFn bc ≠ []) :
    Blockchain._addBlock hashFn ts bc block
      = (.error ⟨"Chain is invalid!"⟩, bc) := by
  simp only [Blockchain._addBlock]
  rw [if_pos]
  simpa using he

theorem wf_preserved (hashFn : String → String) (ts : Nat) (bc : Blockchain)
    (block : Block) (hw : wfChain bc) (hb : block.previousBlockHash = none) :
    wfChain { bc with
      chain := bc.chain ++ [Blockchain.sealCandidate hashFn ts bc block],
      height := bc.height + 1 } := by
  obtain ⟨hh, hht, hlink⟩ := hw
  refine ⟨?_, ?_, ?_⟩
  · simp only [List.length_append, List.length_singleton]
    push_cast
    omega
  · intro i b hi
    simp only at hi
    rcases Nat.lt_or_ge i bc.chain.length with hlt | hge
    · rw [List.getElem?_append_left hlt] at hi
      exact hht i b hi
    · rw [List.getElem?_append_right hge] at hi
      rcases hd : i - bc.chain.length with _ | j
      · rw [hd] at hi
        simp only [List.getElem?_cons_zero, Option.some.injEq] at hi
        rw [← hi, sealCandidate_height]
        omega
      · rw [hd] at hi
        simp at hi
  · intro i b c hc hbi
    simp only at hc hbi
    rcases Nat.lt_or_ge (i + 1) bc.chain.length with hlt | hge
    · rw [List.getElem?_append_left hlt] at hc
      rw [List.getElem?_append_left (by omega)] at hbi
      exact hlink i b c hc hbi
    · rcases Nat.lt_or_ge i bc.chain.length with hlt2 | hge2
      · have hieq : i + 1 = bc.chain.length := by omega
        rw [List.getElem?_append_right hge, hieq] at hc
        simp only [Nat.sub_self, List.getElem?_cons_zero, Option.some.injEq] at hc
        rw [List.getElem?_append_left hlt2] at hbi
        rw [← hc, sealCandidate_prev hashFn ts bc block hb]
        have : bc.chain.length - 1 = i := by omega
        rw [this, hbi]
        rfl
      · rw [List.getElem?_append_right (by omega : bc.chain.length ≤ i + 1)] at hc
        have : 1 ≤ i + 1 - bc.chain.length := by omega
        rcases hd : i + 1 - bc.chain.length with _ | j
        · omega
        · rw [hd] at hc
          simp at hc

/-- An appendRun that succeeds preserves the shape invariant and the
absence of issues, and grows the chain by one block per input. -/
theorem appendRun_inv (hashFn : String → String) :
    ∀ (inputs : List (Nat × String)) (bc bc2 : Blockchain),
      wfChain bc → chainIssues hashFn none bc.chain = [] →
      appendRun hashFn bc inputs = some bc2 →
      wfChain bc2 ∧ chainIssues hashFn none bc2.chain = []
        ∧ bc2.chain.length = bc.chain.length + inputs.length
        ∧ bc2.limitTime = bc.limitTime := by
  intro inputs
  induction inputs with
  | nil =>
    intro bc bc2 hw hok h
    have hbc : bc = bc2 := Option.some.inj h
    subst hbc
    exact ⟨hw, hok, by simp, rfl⟩
  | cons p rest ih =>
    intro bc bc2 hw hok h
    obtain ⟨ts, dataJson⟩ := p
    rw [appendRun] at h
    cases hab : Blockchain._addBlock hashFn ts bc (Block.new dataJson) with
    | mk fst snd =>
      cases fst with
      | error e =>
        rw [hab] at h
        simp at h
      | ok nb =>
        rw [hab] at h
        simp only at h
        obtain ⟨hnb, hbc, _⟩ := addBlock_success hashFn ts bc _ nb snd hab
        have hok2 : chainIssues hashFn none snd.chain = [] := by
          rw [hbc]
          simp only
          rw [hnb, chainIssues_append, hok]
          rw [show lastOr none bc.chain = lastOr none bc.chain from rfl]
          simp only [List.nil_append]
          rw [chainIssues, chainIssues]
          rw [blockIssues_sealCandidate hashFn ts bc _ rfl rfl]
          simp
        have hw2 : wfChain snd := by
          rw [hbc, hnb]
          exact wf_preserved hashFn ts bc _ hw rfl
        obtain ⟨hw3, hok3, hlen3, hlim3⟩ := ih snd bc2 hw2 hok2 h
        have hsndlen : snd.chain.length = bc.chain.length + 1 := by
          rw [hbc]
          simp
        have hsndlim : snd.limitTime = bc.limitTime := by
          rw [hbc]
        refine ⟨hw3, hok3, ?_, ?_⟩
        · rw [hlen3, hsndlen]
          simp only [List.length_cons]
          omega
        · rw [hlim3, hsndlim]

/-- The freshly constructed chain: one sealed genesis block, cached
height zero, limitTime five minutes in seconds. -/
theorem freshChain_eq (hashFn : String → String) (ts : Nat) :
    freshChain hashFn ts
      = { chain := [Blockchain.sealCandidate hashFn ts
            { chain := [], height := -1, limitTime := minuteToSeconds 5 }
            (Block.new "\x7b\"data\":\"Genesis Block\"\x7d")],
          height := 0, limitTime := minuteToSeconds 5 } := by
  simp only [freshChain, Blockchain._addBlock]
  norm_num [Blockchain.validateChain, Blockchain.validateChainSt, validateWalk]

theorem freshChain_wf (hashFn : String → String) (ts : Nat) :
    wfChain (freshChain hashFn ts) := by
  rw [freshChain_eq]
  refine ⟨by simp, ?_, ?_⟩
  · intro i b hi
    simp only at hi
    rcases i with _ | j
    · simp only [List.getElem?_cons_zero, Option.some.injEq] at hi
      rw [← hi, sealCandidate_height]
      rfl
    · simp at hi
  · intro i b c hc hbi
    simp at hc

theorem freshChain_issues (hashFn : String → String) (ts : Nat) :
    chainIssues hashFn none (freshChain hashFn ts).chain = [] := by
  have h := blockIssues_sealCandidate hashFn ts
    { chain := [], height := -1, limitTime := minuteToSeconds 5 }
    (Block.new "\x7b\"data\":\"Genesis Block\"\x7d") rfl rfl
  rw [freshChain_eq]
  show chainIssues hashFn none [_] = []
  rw [chainIssues, chainIssues]
  simpa [lastOr] using h

/-- A rejecting _addBlock call always carries the fixed message and
returns the chain untouched. -/
theorem addBlock_error_shape (hashFn : String → String) (ts : Nat)
    (bc : Blockchain) (block : Block) (e : AddNewBlockError) (bc2 : Blockchain)
    (h : Blockchain._addBlock hashFn ts bc block = (.error e, bc2)) :
    e = ⟨"Chain is invalid!"⟩ ∧ bc2 = bc := by
  simp only [Blockchain._addBlock] at h
  by_cases he : (Blockchain.validateChain hashFn bc).length ≠ 0
  · rw [if_pos he] at h
    simp only [Prod.mk.injEq, Except.error.injEq] at h
    exact ⟨h.1.symm, h.2.symm⟩
  · rw [if_neg he] at h
    simp at h

/-- C9: validateChain is a read-only diagnostic.  Each Block.validate
call inside the walk restores the hash it cleared, so the Blockchain
value after the call, block sequence, every stored block, cached height
and limitTime included, is exactly the value before the call.  In the
source the walk can also reject, but only when a Block.validate call
throws, which serialization of these block values never does. -/
theorem c9_validateChain_readonly (hashFn : String → String) (bc : Blockchain) :
    (Blockchain.validateChainSt hashFn bc).2 = bc := by
  simp [Blockchain.validateChainSt, validateWalk_eq]

/-- C5: with a well-formed challenge, submitStar fails with the expired
error exactly when now minus the issue time strictly exceeds the limit,
and the limit used by the constructor, minuteToSeconds 5, is 300
seconds; in particular an elapsed time of exactly 300 passes the
freshness check and 301 fails it. -/
theorem c5_expiry_boundary (hashFn : String → String)
    (verify : String → String → String → Bool) (now ts : Nat) (bc : Blockchain)
    (address message signature starJson : String) (m : Nat)
    (hm : parseMessageTime message = some m)
    (hlim : bc.limitTime = minuteToSeconds 5) :
    minuteToSeconds 5 = 300 ∧
    ((Blockchain.submitStar hashFn verify now ts bc address message signature
        starJson).1 = .error submitExpiredError
      ↔ (now : Int) - (m : Int) > 300) := by
  refine ⟨rfl, ?_⟩
  have h300 : ((bc.limitTime : Nat) : Int) = 300 := by
    rw [hlim]
    rfl
  simp only [Blockchain.submitStar, hm, h300]
  by_cases hexp : (now : Int) - (m : Int) > 300
  · simp [hexp]
  · rw [if_neg (by simpa using hexp)]
    cases hv : verify message address signature with
    | false =>
      simp only [Bool.not_false, if_pos]
      constructor
      · intro h
        exact absurd (Except.error.inj h) (by decide)
      · intro h
        exact absurd h hexp
    | true =>
      simp only [Bool.not_true, if_neg (by decide : ¬False)]
      cases hab : Blockchain._addBlock hashFn ts bc
          (Block.new (starBodyJson address starJson)) with
      | mk fst snd =>
        cases fst with
        | ok b =>
          simp only [hab]
          constructor
          · intro h
            simp at h
          · intro h
            exact absurd h hexp
        | error e =>
          obtain ⟨he, _⟩ := addBlock_error_shape hashFn ts bc _ e snd hab
          subst he
          simp only [hab]
          constructor
          · intro h
            exact absurd (Except.error.inj h) (by decide)
          · intro h
            exact absurd h hexp

/-- C5 witness: a concrete run at the two boundary instants with an
always-accepting oracle. -/
theorem c5_witness :
    (Blockchain.submitStar id (fun _ _ _ => true) 1301 2000 (freshChain id 5)
        "a" "a:1000:starRegistry" "sig" "\"S\"").1 = .error submitExpiredError
    ∧ ¬((Blockchain.submitStar id (fun _ _ _ => true) 1300 2000 (freshChain id 5)
        "a" "a:1000:starRegistry" "sig" "\"S\"").1 = .error submitExpiredError) := by
  constructor
  · exact ((c5_expiry_boundary id (fun _ _ _ => true) 1301 2000 (freshChain id 5)
      "a" "a:1000:starRegistry" "sig" "\"S\"" 1000 (by decide) (by decide)).2).mpr
      (by decide)
  · intro h
    have h2 := ((c5_expiry_boundary id (fun _ _ _ => true) 1300 2000 (freshChain id 5)
      "a" "a:1000:starRegistry" "sig" "\"S\"" 1000 (by decide) (by decide)).2).mp h
    exact absurd h2 (by decide)

/-- C8: a fresh challenge whose signature the oracle rejects makes
submitStar fail with the bad-signature error, and the Blockchain value
handed back, chain and cached height included, is the one passed in. -/
theorem c8_bad_signature (hashFn : String → String)
    (verify : String → String → String → Bool) (now ts : Nat) (bc : Blockchain)
    (address message signature starJson : String) (m : Nat)
    (hm : parseMessageTime message = some m)
    (hfresh : ¬((now : Int) - (m : Int) > (bc.limitTime : Int)))
    (hv : verify message address signature = false) :
    Blockchain.submitStar hashFn verify now ts bc address message signature starJson
      = (.error submitBadSignatureError, bc) := by
  simp [Blockchain.submitStar, hm, hfresh, hv]

/-- C8 witness: a concrete fresh submission with a rejecting oracle. -/
theorem c8_witness :
    Blockchain.submitStar id (fun _ _ _ => false) 1200 2000 (freshChain id 5)
        "a" "a:1000:starRegistry" "sig" "\"S\""
      = (.error submitBadSignatureError, freshChain id 5) :=
  c8_bad_signature id (fun _ _ _ => false) 1200 2000 (freshChain id 5)
    "a" "a:1000:starRegistry" "sig" "\"S\"" 1000 (by decide) (by decide) rfl

/-- C10: sealing is not repeatable.  setHash digests the serialization
of the block as it stands, so a second setHash call on a block whose
hash field is already set digests a serialization that embeds the first
digest, while Block.validate recomputes the digest over the
serialization with the hash field cleared; with an injective digest the
two disagree and validate answers false. -/
theorem c10_setHash_not_repeatable (hashFn : String → String)
    (hinj : Function.Injective hashFn) (b : Block) (h0 : String)
    (hb : b.hash = some h0) :
    Block.validate hashFn (Block.setHash hashFn b) = false := by
  rw [Bool.eq_false_iff, Ne, validate_true_iff]
  simp only [Block.setHash, Block._hashBlock, Option.some.injEq]
  intro hEq
  have hser : serialize b = serialize { b with hash := none } := hinj hEq
  have hser2 : serialize { b with hash := b.hash } = serialize { b with hash := none } := by
    rw [show ({ b with hash := b.hash } : Block) = b by cases b; rfl]
    exact hser
  have := serialize_hash_inj b hser2
  rw [hb] at this
  simp at this

/-- C10 witness: a concrete block with a pre-set hash field. -/
theorem c10_witness :
    Block.validate id (Block.setHash id
      { hash := some "junk", height := 0, body := "aa", time := none,
        previousBlockHash := none }) = false :=
  c10_setHash_not_repeatable id Function.injective_id
    { hash := some "junk", height := 0, body := "aa", time := none,
      previousBlockHash := none } "junk" rfl

/-- C6: tamper detection round trip.  Sealing a block whose hash field
is still null, through the point-chained setPreviousHash, setTimeStamp,
setHeight and setHash calls as _addBlock performs them, yields a block
Block.validate accepts; and changing any one serialized field of the
sealed block, height, time, previousBlockHash or body, to a different
value makes Block.validate answer false, assuming the digest oracle is
injective.  The Block constructor always starts a block with a null
hash field, so every first sealing satisfies the hypothesis; resealing
an already sealed block is the separate non-repeatability property. -/
theorem c6_seal_then_validate (hashFn : String → String)
    (hinj : Function.Injective hashFn) (b : Block) (hb : b.hash = none)
    (a : Option String) (ts hgt : Nat) (sealed : Block)
    (hseal : sealed = Block.setHash hashFn
      (Block.setHeight (Block.setTimeStamp (Block.setPreviousHash b a) ts) hgt)) :
    Block.validate hashFn sealed = true
    ∧ (∀ v, v ≠ sealed.height → Block.validate hashFn { sealed with height := v } = false)
    ∧ (∀ v, v ≠ sealed.time → Block.validate hashFn { sealed with time := v } = false)
    ∧ (∀ v, v ≠ sealed.previousBlockHash →
        Block.validate hashFn { sealed with previousBlockHash := v } = false)
    ∧ (∀ v, v ≠ sealed.body → Block.validate hashFn { sealed with body := v } = false) := by
  have hvt : Block.validate hashFn sealed = true := by
    rw [hseal]
    apply validate_setHash
    rw [hash_after_setters]
    exact hb
  refine ⟨hvt, ?_, ?_, ?_, ?_⟩
  · intro v hv
    exact validate_false_of_ne hashFn hinj sealed { sealed with height := v } rfl hvt
      (fun hser => hv (serialize_height_inj { sealed with hash := none } hser))
  · intro v hv
    exact validate_false_of_ne hashFn hinj sealed { sealed with time := v } rfl hvt
      (fun hser => hv (serialize_time_inj { sealed with hash := none } hser))
  · intro v hv
    exact validate_false_of_ne hashFn hinj sealed
      { sealed with previousBlockHash := v } rfl hvt
      (fun hser => hv (serialize_prev_inj { sealed with hash := none } hser))
  · intro v hv
    exact validate_false_of_ne hashFn hinj sealed { sealed with body := v } rfl hvt
      (fun hser => hv (serialize_body_inj { sealed with hash := none } hser))

/-- Concrete sealed block for the C6 witness. -/
def c6SealedBlock : Block :=
  Block.setHash id
    (Block.setHeight (Block.setTimeStamp
      (Block.setPreviousHash (Block.new "\"x\"") (some "ph")) 9) 1)

/-- C6 witness: a concrete sealing round trip with one concrete
corruption of each serialized field. -/
theorem c6_witness :
    Block.validate id c6SealedBlock = true
    ∧ Block.validate id { c6SealedBlock with height := 99 } = false
    ∧ Block.validate id { c6SealedBlock with time := some 42 } = false
    ∧ Block.validate id { c6SealedBlock with previousBlockHash := none } = false
    ∧ Block.validate id { c6SealedBlock with body := "00" } = false := by
  have h := c6_seal_then_validate id Function.injective_id (Block.new "\"x\"") rfl
    (some "ph") 9 1 c6SealedBlock rfl
  exact ⟨h.1, h.2.1 99 (by decide), h.2.2.1 (some 42) (by decide),
    h.2.2.2.1 none (by decide), h.2.2.2.2 "00" (by decide)⟩

/-- C3: append monotonicity.  After any run of successful appends on a
freshly constructed chain, the resolved chain height equals the number
of appends, the chain holds that many blocks plus the genesis block,
every stored block records its own index as its height, and every block
after the first carries the hash of its predecessor. -/
theorem c3_append_monotonicity (hashFn : String → String) (ts0 : Nat)
    (inputs : List (Nat × String)) (bc : Blockchain)
    (hrun : appendRun hashFn (freshChain hashFn ts0) inputs = some bc) :
    Blockchain.getChainHeight bc = (inputs.length : Int)
    ∧ bc.chain.length = inputs.length + 1
    ∧ (∀ (i : Nat) (b : Block), bc.chain[i]? = some b → b.height = i)
    ∧ (∀ (i : Nat) (b c : Block), bc.chain[i + 1]? = some c → bc.chain[i]? = some b →
        c.previousBlockHash = b.hash) := by
  obtain ⟨hw, hok, hlen, hlim⟩ := appendRun_inv hashFn inputs _ bc
    (freshChain_wf hashFn ts0) (freshChain_issues hashFn ts0) hrun
  have hfl : (freshChain hashFn ts0).chain.length = 1 := by
    rw [freshChain_eq]
    rfl
  rw [hfl] at hlen
  refine ⟨?_, by omega, hw.2.1, hw.2.2⟩
  have hh := hw.1
  unfold Blockchain.getChainHeight
  rw [hh, hlen]
  push_cast
  omega

/-- Concrete chain after one append for the C3 witness. -/
def c3RunResult : Blockchain :=
  (appendRun id (freshChain id 5) [(6, "\"A\"")]).getD (freshChain id 5)

set_option maxRecDepth 40000 in
/-- C3 witness: one concrete successful append on a fresh chain. -/
theorem c3_witness :
    Blockchain.getChainHeight c3RunResult = 1 ∧ c3RunResult.chain.length = 2 := by
  have h := c3_append_monotonicity id 5 [(6, "\"A\"")] c3RunResult (by decide)
  exact ⟨h.1, h.2.1⟩

/-- Splitting a list at an occupied index, before and after a
point update. -/
theorem list_set_decomp :
    ∀ (l : List Block) (j : Nat) (b : Block), l[j]? = some b → ∀ m : Block,
      l = l.take j ++ b :: l.drop (j + 1)
      ∧ l.set j m = l.take j ++ m :: l.drop (j + 1) := by
  intro l
  induction l with
  | nil =>
    intro j b hj m
    simp at hj
  | cons x xs ih =>
    intro j b hj m
    cases j with
    | zero =>
      simp only [List.getElem?_cons_zero, Option.some.injEq] at hj
      subst hj
      exact ⟨by simp, by simp⟩
    | succ k =>
      rw [List.getElem?_cons_succ] at hj
      obtain ⟨h1, h2⟩ := ih k b hj m
      constructor
      · simp only [List.take_succ_cons, List.drop_succ_cons, List.cons_append]
        exact congrArg (x :: ·) h1
      · simp only [List.set_cons_succ, List.take_succ_cons, List.drop_succ_cons,
          List.cons_append]
        exact congrArg (x :: ·) h2

/-- C2: out-of-band payload tampering.  On any chain produced by
successful appends from a fresh chain, replacing the body of exactly
one stored block with a different value makes validateChain report
exactly one issue: the tamper issue, whose recorded height is the
height stored in that block, which is its position; and no link issue,
because the hash fields the link check compares are untouched.  The
tamper message of the source is the string Block is not valid.  The
digest oracle is assumed injective, the collision-freeness the
specification grants it. -/
theorem c2_tampered_block_single_issue (hashFn : String → String)
    (hinj : Function.Injective hashFn) (ts0 : Nat)
    (inputs : List (Nat × String)) (bc : Blockchain)
    (hrun : appendRun hashFn (freshChain hashFn ts0) inputs = some bc)
    (j : Nat) (bj : Block) (hj : bc.chain[j]? = some bj)
    (nb : String) (hnb : nb ≠ bj.body) :
    Blockchain.validateChain hashFn
        { bc with chain := bc.chain.set j { bj with body := nb } }
      = [⟨"Block is not valid", IssueData.tamper bj.hash bj.height⟩]
    ∧ bj.height = j := by
  obtain ⟨hw, hok, _, _⟩ := appendRun_inv hashFn inputs _ bc
    (freshChain_wf hashFn ts0) (freshChain_issues hashFn ts0) hrun
  have hht : bj.height = j := hw.2.1 j bj hj
  obtain ⟨hdec, hset⟩ := list_set_decomp bc.chain j bj hj { bj with body := nb }
  have hok2 : chainIssues hashFn none
      (bc.chain.take j ++ bj :: bc.chain.drop (j + 1)) = [] := by
    rw [← hdec]
    exact hok
  rw [chainIssues_append, chainIssues] at hok2
  obtain ⟨hA, hBC⟩ := List.append_eq_nil.mp hok2
  obtain ⟨hB, hC⟩ := List.append_eq_nil.mp hBC
  unfold blockIssues at hB
  obtain ⟨hB1, hB2⟩ := List.append_eq_nil.mp hB
  have hvbj : Block.validate hashFn bj = true := by
    by_cases hv : Block.validate hashFn bj
    · exact hv
    · rw [if_neg hv] at hB1
      simp at hB1
  have hvm : Block.validate hashFn { bj with body := nb } = false :=
    validate_false_of_ne hashFn hinj bj { bj with body := nb } rfl hvbj
      (fun hser => hnb (serialize_body_inj { bj with hash := none } hser))
  have hcongr : chainIssues hashFn (some { bj with body := nb })
      (bc.chain.drop (j + 1)) = chainIssues hashFn (some bj) (bc.chain.drop (j + 1)) :=
    chainIssues_congr hashFn (by rfl) (bc.chain.drop (j + 1))
  refine ⟨?_, hht⟩
  rw [validateChain_eq]
  show chainIssues hashFn none (bc.chain.set j { bj with body := nb }) = _
  rw [hset, chainIssues_append, chainIssues, hA, hcongr, hC]
  simp only [List.nil_append, List.append_nil]
  unfold blockIssues
  rw [hvm]
  dsimp only
  rw [hB2]
  simp

/-- The sealed genesis block of a fresh chain built with the identity
digest at clock 5, for the C2 witness. -/
def c2GenesisBlock : Block :=
  Blockchain.sealCandidate id 5
    { chain := [], height := -1, limitTime := minuteToSeconds 5 }
    (Block.new "\x7b\"data\":\"Genesis Block\"\x7d")

set_option maxRecDepth 40000 in
/-- C2 witness: corrupting the stored genesis body of a concrete fresh
chain yields exactly the one tamper issue at height zero. -/
theorem c2_witness :
    Blockchain.validateChain id
        { freshChain id 5 with
          chain := (freshChain id 5).chain.set 0 { c2GenesisBlock with body := "00" } }
      = [⟨"Block is not valid", IssueData.tamper c2GenesisBlock.hash c2GenesisBlock.height⟩]
    ∧ c2GenesisBlock.height = 0 :=
  c2_tampered_block_single_issue id Function.injective_id 5 [] (freshChain id 5) rfl
    0 c2GenesisBlock (by decide) "00" (by decide)

/-- C1, amended: _addBlock runs full-chain validation on the chain as
stored, before the candidate is pushed and with the candidate excluded
from the walk.  When that walk reports any issue the append rejects
with the AddNewBlockError carrying the fixed message and the chain,
block sequence and cached height alike, is exactly as before the call;
when it reports none, the sealed candidate is pushed and the cached
height incremented, with no other change.  The claim as frozen says the
validation covers the chain with the candidate appended; the
counterexample shows it does not. -/
theorem c1_append_validates_prior_chain (hashFn : String → String) (ts : Nat)
    (bc : Blockchain) (block : Block) :
    (Blockchain.validateChain hashFn bc ≠ [] →
      Blockchain._addBlock hashFn ts bc block = (.error ⟨"Chain is invalid!"⟩, bc))
    ∧ (Blockchain.validateChain hashFn bc = [] →
      Blockchain._addBlock hashFn ts bc block
        = (.ok (Blockchain.sealCandidate hashFn ts bc block),
           { bc with
             chain := bc.chain ++ [Blockchain.sealCandidate hashFn ts bc block],
             height := bc.height + 1 })) := by
  constructor
  · exact addBlock_failure hashFn ts bc block
  · intro h
    simp [Blockchain._addBlock, h]

/-- A stored block that fails Block.validate, for the C1 witness. -/
def c1BadBlock : Block :=
  { hash := some "x", height := 0, body := "bb", time := none,
    previousBlockHash := none }

/-- A chain whose single stored block fails Block.validate, for the C1
witness. -/
def c1BadChain : Blockchain :=
  { chain := [c1BadBlock], height := 0, limitTime := 300 }

set_option maxRecDepth 40000 in
/-- C1 witness: a concrete rejected append on a corrupted chain and a
concrete successful append on a fresh chain. -/
theorem c1_witness :
    Blockchain._addBlock id 3 c1BadChain (Block.new "\"B\"")
      = (.error ⟨"Chain is invalid!"⟩, c1BadChain)
    ∧ Blockchain._addBlock id 3 (freshChain id 1) (Block.new "\"B\"")
      = (.ok (Blockchain.sealCandidate id 3 (freshChain id 1) (Block.new "\"B\"")),
         { freshChain id 1 with
           chain := (freshChain id 1).chain
             ++ [Blockchain.sealCandidate id 3 (freshChain id 1) (Block.new "\"B\"")],
           height := (freshChain id 1).height + 1 }) :=
  ⟨(c1_append_validates_prior_chain id 3 c1BadChain (Block.new "\"B\"")).1 (by decide),
   (c1_append_validates_prior_chain id 3 (freshChain id 1) (Block.new "\"B\"")).2 (by decide)⟩

/-- A candidate whose hash field is already set, for the C1
counterexample: sealing it digests a serialization embedding the stale
digest, so the sealed block fails Block.validate. -/
def c1PreHashedCandidate : Block :=
  { hash := some "junk", height := 0, body := "aa", time := none,
    previousBlockHash := none }

set_option maxRecDepth 40000 in
/-- C1 counterexample: on a fresh, issue-free chain, _addBlock commits
a candidate even though the chain with that candidate appended fails
full-chain validation with one issue; had the validation covered the
chain with the candidate appended, this append would have rejected. -/
theorem c1_counterexample :
    Blockchain.validateChain id (freshChain id 5) = []
    ∧ (Blockchain._addBlock id 10 (freshChain id 5) c1PreHashedCandidate).1
      = .ok (Blockchain.sealCandidate id 10 (freshChain id 5) c1PreHashedCandidate)
    ∧ (Blockchain.validateChain id
        (Blockchain._addBlock id 10 (freshChain id 5) c1PreHashedCandidate).2).length
      = 1 := by
  exact ⟨by decide, by decide, by decide⟩

/-- C4, amended: when no integer issue time can be parsed out of the
challenge, parseInt yields NaN, the elapsed-time comparison against the
limit is false, and submitStar proceeds straight to the signature
check: there is no malformed-challenge error kind in the code.  The
outcome is decided by the signature oracle, so the oracle is consulted:
a rejecting oracle gives the generic bad-signature SubmitStarError with
the chain unchanged, an accepting oracle lets the submission through to
_addBlock, which on an issue-free chain appends a block. -/
theorem c4_malformed_challenge_not_rejected_early (hashFn : String → String)
    (verify : String → String → String → Bool) (now ts : Nat) (bc : Blockchain)
    (address message signature starJson : String)
    (hm : parseMessageTime message = none) :
    (verify message address signature = false →
      Blockchain.submitStar hashFn verify now ts bc address message signature starJson
        = (.error submitBadSignatureError, bc))
    ∧ (verify message address signature = true →
        Blockchain.validateChain hashFn bc = [] →
        Blockchain.submitStar hashFn verify now ts bc address message signature starJson
          = (.ok (Blockchain.sealCandidate hashFn ts bc
              (Block.new (starBodyJson address starJson))),
             { bc with
               chain := bc.chain ++ [Blockchain.sealCandidate hashFn ts bc
                 (Block.new (starBodyJson address starJson))],
               height := bc.height + 1 })) := by
  constructor
  · intro hv
    simp [Blockchain.submitStar, hm, hv]
  · intro hv hval
    simp [Blockchain.submitStar, hm, hv, Blockchain._addBlock, hval]

set_option maxRecDepth 40000 in
/-- C4 witness: a concrete malformed challenge submitted once against
a rejecting oracle and once against an accepting oracle. -/
theorem c4_witness :
    Blockchain.submitStar id (fun _ _ _ => false) 0 1 (freshChain id 5)
        "a" "nocolons" "s" "\"S\""
      = (.error submitBadSignatureError, freshChain id 5)
    ∧ Blockchain.submitStar id (fun _ _ _ => true) 0 1 (freshChain id 5)
        "a" "nocolons" "s" "\"S\""
      = (.ok (Blockchain.sealCandidate id 1 (freshChain id 5)
            (Block.new (starBodyJson "a" "\"S\""))),
         { freshChain id 5 with
           chain := (freshChain id 5).chain
             ++ [Blockchain.sealCandidate id 1 (freshChain id 5)
                  (Block.new (starBodyJson "a" "\"S\""))],
           height := (freshChain id 5).height + 1 }) :=
  ⟨(c4_malformed_challenge_not_rejected_early id (fun _ _ _ => false) 0 1
      (freshChain id 5) "a" "nocolons" "s" "\"S\"" (by decide)).1 rfl,
   (c4_malformed_challenge_not_rejected_early id (fun _ _ _ => true) 0 1
      (freshChain id 5) "a" "nocolons" "s" "\"S\"" (by decide)).2 rfl (by decide)⟩

set_option maxRecDepth 40000 in
/-- C4 counterexample: a challenge with no parsable issue time is not
rejected as malformed; with an accepting oracle the submission appends
a block (the chain grows to two blocks), and with a rejecting oracle
the failure is the bad-signature error, so the oracle is consulted and
the chain is mutated, contrary to the claim. -/
theorem c4_counterexample :
    (Blockchain.submitStar id (fun _ _ _ => true) 0 1 (freshChain id 5)
        "a" "nocolons" "s" "\"S\"").2.chain.length = 2
    ∧ (Blockchain.submitStar id (fun _ _ _ => false) 0 1 (freshChain id 5)
        "a" "nocolons" "s" "\"S\"").1 = .error submitBadSignatureError := by
  exact ⟨by decide, by decide⟩

/-- Success shape of the owner-lookup walk: the stars handed back are
the accumulator followed by the matching decodes of the walked blocks
in order, and every walked block passed the genesis test of
getBData. -/
theorem getStarsWalk_ok (decode : String → Option StarData) (address : String) :
    ∀ (l : List Block) (acc stars : List StarData),
      getStarsWalk decode address l acc = .ok stars →
      stars = acc ++ (l.filterMap (fun b => decode b.body)).filter
          (fun d => decide (d.owner = address))
      ∧ ∀ b, b ∈ l → b.height ≠ 0 ∧ b.previousBlockHash ≠ none := by
  intro l
  induction l with
  | nil =>
    intro acc stars h
    rw [getStarsWalk] at h
    simp only [Except.ok.injEq] at h
    subst h
    exact ⟨by simp, by simp⟩
  | cons b rest ih =>
    intro acc stars h
    rw [getStarsWalk] at h
    cases hgb : Block.getBData decode b with
    | error e =>
      rw [hgb] at h
      simp at h
    | ok d =>
      rw [hgb] at h
      have hbd : ¬(b.previousBlockHash = none ∨ b.height = 0) ∧ decode b.body = some d := by
        unfold Block.getBData at hgb
        by_cases hg : b.previousBlockHash = none ∨ b.height = 0
        · rw [if_pos hg] at hgb
          simp at hgb
        · rw [if_neg hg] at hgb
          cases hd : decode b.body with
          | none =>
            rw [hd] at hgb
            simp at hgb
          | some d2 =>
            rw [hd] at hgb
            simp only [Except.ok.injEq] at hgb
            subst hgb
            exact ⟨hg, rfl⟩
      obtain ⟨h1, h2⟩ := ih _ stars h
      refine ⟨?_, ?_⟩
      · rw [h1]
        simp only [List.filterMap_cons, hbd.2, List.filter_cons]
        by_cases howner : d.owner = address
        · simp [howner]
        · simp [howner]
      · intro b2 hb2
        rcases List.mem_cons.mp hb2 with rfl | hmem
        · push_neg at hbd
          exact ⟨hbd.1.2, hbd.1.1⟩
        · exact h2 b2 hmem

/-- Failure propagation of the owner-lookup walk: a block whose body
does not decode makes the whole walk reject. -/
theorem getStarsWalk_err (decode : String → Option StarData) (address : String) :
    ∀ (l : List Block) (acc : List StarData) (b : Block), b ∈ l →
      decode b.body = none →
      (getStarsWalk decode address l acc).isOk = false := by
  intro l
  induction l with
  | nil =>
    intro acc b hb
    simp at hb
  | cons x rest ih =>
    intro acc b hb hdec
    rw [getStarsWalk]
    cases hgb : Block.getBData decode x with
    | error e => rfl
    | ok d =>
      rcases List.mem_cons.mp hb with rfl | hmem
      · exfalso
        unfold Block.getBData at hgb
        by_cases hg : b.previousBlockHash = none ∨ b.height = 0
        · rw [if_pos hg] at hgb
          simp at hgb
        · rw [if_neg hg, hdec] at hgb
          simp at hgb
      · exact ih _ b hmem hdec

/-- C7: owner lookup.  The walk covers chain.slice(1), so the genesis
block at index zero contributes nothing (the genesis skip happens at
the Chain layer); on success the records are exactly the matching
decodes of the remaining blocks, all of which passed the genesis test
and so have nonzero height; and a body that fails to decode on any
walked block, in particular any non-genesis block, aborts the whole
call with the lookup error (the only error kind the operation has)
instead of being skipped. -/
theorem c7_owner_lookup (decode : String → Option StarData) (bc : Blockchain)
    (address : String) :
    (∀ stars, Blockchain.getStarsByWalletAddress decode bc address = .ok stars →
      stars = ((bc.chain.drop 1).filterMap (fun b => decode b.body)).filter
          (fun d => decide (d.owner = address))
      ∧ ∀ b, b ∈ bc.chain.drop 1 → b.height ≠ 0)
    ∧ (∀ b, b ∈ bc.chain.drop 1 → decode b.body = none →
        (Blockchain.getStarsByWalletAddress decode bc address).isOk = false) := by
  constructor
  · intro stars h
    obtain ⟨h1, h2⟩ := getStarsWalk_ok decode address _ [] stars h
    exact ⟨by simpa using h1, fun b hb => (h2 b hb).1⟩
  · intro b hb hdec
    exact getStarsWalk_err decode address _ [] b hb hdec

/-- Decoder for the C7 witness. -/
def c7Decode : String → Option StarData :=
  fun s => if s = "A" then some ⟨"a", "s1"⟩ else none

/-- Star block for the C7 witness. -/
def c7StarBlock : Block :=
  { hash := some "h1", height := 1, body := "A", time := some 1,
    previousBlockHash := some "g" }

/-- Two-block chain whose non-genesis block decodes, for the C7
witness. -/
def c7OkChain : Blockchain :=
  { chain := [Block.new "\"g\"", c7StarBlock], height := 1, limitTime := 300 }

/-- Two-block chain whose non-genesis block fails to decode, for the
C7 witness. -/
def c7BadChain : Blockchain :=
  { chain := [Block.new "\"g\"", { c7StarBlock with body := "B" }],
    height := 1, limitTime := 300 }

/-- C7 witness: a concrete lookup returning one record that the filter
formula reproduces, and a concrete lookup aborted by a decode
failure. -/
theorem c7_witness :
    ([⟨"a", "s1"⟩] : List StarData)
      = ((c7OkChain.chain.drop 1).filterMap (fun b => c7Decode b.body)).filter
          (fun d => decide (d.owner = "a"))
    ∧ c7StarBlock.height ≠ 0
    ∧ (Blockchain.getStarsByWalletAddress c7Decode c7BadChain "a").isOk = false := by
  obtain ⟨h1, h2⟩ := (c7_owner_lookup c7Decode c7OkChain "a").1 [⟨"a", "s1"⟩] (by decide)
  exact ⟨h1, h2 c7StarBlock (by decide),
    (c7_owner_lookup c7Decode c7BadChain "a").2 { c7StarBlock with body := "B" }
      (by decide) (by decide)⟩







